import Mathlib

/-!
A shallow embedding of the `OpenAPIAnalyzer` analysis engine of
`openapi-analyzer-mcp` (`src/index.ts`) together with proofs about its
query operations.

Parsed OpenAPI documents are modelled as JSON trees (`Json`).  JavaScript
operations used by the engine (`Object.keys`, `Object.entries`, truthiness,
`x || dflt`, property access, `String.prototype.toLowerCase`,
`String.prototype.includes`, `Array.prototype.join` stringification,
`String(x)`) are modelled explicitly.

Two deliberate boundaries of the model, marked below where they occur:
* `Object.keys`/`Object.entries` throw a `TypeError` in JavaScript when
  applied to `null`; here `Json.jsEntries` returns `[]` for `null`.
  Theorems that quantify over registries therefore carry a hypothesis
  excluding `null` path items (`RegistrySafe`) or requiring well-formed
  `paths` objects, so they speak only about inputs on which the code
  actually produces a value.
* JavaScript objects cannot hold duplicate keys; `Json.obj` carries an
  association list, and theorems that need key uniqueness state it as a
  `Nodup` hypothesis.
-/

/- JSON value, the shape of documents handed to the engine by the loader.
Arrays and objects carry their own spine types (`JsonArr`, `JsonObj`) so
that recursive traversals are structural and evaluate inside the kernel. -/
mutual

inductive Json where
  | null : Json
  | bool (b : Bool) : Json
  | num (n : Int) : Json
  | str (s : String) : Json
  | arr (elems : JsonArr) : Json
  | obj (fields : JsonObj) : Json

inductive JsonArr where
  | nil : JsonArr
  | cons (hd : Json) (tl : JsonArr) : JsonArr

inductive JsonObj where
  | nil : JsonObj
  | cons (key : String) (val : Json) (tl : JsonObj) : JsonObj

end

/-- The elements of an array spine as a `List`. -/
def JsonArr.toList : JsonArr → List Json
  | .nil => []
  | .cons h t => h :: t.toList

/-- Build an array spine from a `List`. -/
def JsonArr.ofList : List Json → JsonArr
  | [] => .nil
  | h :: t => .cons h (JsonArr.ofList t)

/-- The fields of an object spine as an association `List`. -/
def JsonObj.toList : JsonObj → List (String × Json)
  | .nil => []
  | .cons k v t => (k, v) :: t.toList

/-- Build an object spine from an association `List`. -/
def JsonObj.ofList : List (String × Json) → JsonObj
  | [] => .nil
  | (k, v) :: t => .cons k v (JsonObj.ofList t)

namespace Json

/-- Convenience constructor: array from a `List`. -/
def jarr (elems : List Json) : Json :=
  .arr (JsonArr.ofList elems)

/-- Convenience constructor: object from an association `List`. -/
def jobj (fields : List (String × Json)) : Json :=
  .obj (JsonObj.ofList fields)

/-- JavaScript truthiness of a JSON value. -/
def truthy : Json → Bool
  | .null => false
  | .bool b => b
  | .num n => n != 0
  | .str s => s != ""
  | .arr _ => true
  | .obj _ => true

/-- Is the value exactly `null`? -/
def isNull : Json → Bool
  | .null => true
  | _ => false

/-- `typeof v === "object" && v !== null`: plain objects and arrays pass,
`null` and primitives do not. -/
def isObjectLike : Json → Bool
  | .obj _ => true
  | .arr _ => true
  | _ => false

/-- Is the value a plain (non-array) object — a "structured object" in the
spec's wording? -/
def isPlainObj : Json → Bool
  | .obj _ => true
  | _ => false

/-- JavaScript property read `v[k]` / `v.k` (returning `none` for
`undefined`).  Objects look the key up; arrays and strings answer canonical
numeric indices; primitives have no own properties of interest. -/
def getProp (v : Json) (k : String) : Option Json :=
  match v with
  | .obj fields => fields.toList.lookup k
  | .arr elems => ((elems.toList.enum.find? fun ic => Nat.repr ic.1 == k).map Prod.snd)
  | .str s =>
    (s.toList.enum.find? fun ic => Nat.repr ic.1 == k).map fun ic =>
      Json.str (String.mk [ic.2])
  | _ => none

/-- `Object.entries(v)`.  In JavaScript `Object.entries(null)` throws a
`TypeError`; here it returns `[]` — theorems exclude that case by
hypothesis. -/
def jsEntries : Json → List (String × Json)
  | .obj fields => fields.toList
  | .arr elems => elems.toList.enum.map fun ic => (Nat.repr ic.1, ic.2)
  | .str s => s.toList.enum.map fun ic => (Nat.repr ic.1, Json.str (String.mk [ic.2]))
  | _ => []

/-- `Object.keys(v)` (same caveat about `null` as `jsEntries`). -/
def jsKeys (v : Json) : List String :=
  v.jsEntries.map Prod.fst

end Json

/- `String(x)` stringification of the JSON fragment of JavaScript values
(arrays render as their comma-join, in which a `null` element renders
empty; at top level `null` renders as `"null"`). -/
mutual

def Json.jsToString : Json → String
  | .null => "null"
  | .bool b => cond b "true" "false"
  | .num n => Int.repr n
  | .str s => s
  | .arr elems => elems.joinComma
  | .obj _ => "[object Object]"

def JsonArr.joinComma : JsonArr → String
  | .nil => ""
  | .cons .null .nil => ""
  | .cons h .nil => h.jsToString
  | .cons .null t => "," ++ t.joinComma
  | .cons h t => h.jsToString ++ "," ++ t.joinComma

end

/-- `String.prototype.toLowerCase` (ASCII range, which is all the engine's
own string constants use). -/
def jsLower (s : String) : String :=
  String.mk (s.toList.map Char.toLower)

/-- `String.prototype.toUpperCase` (ASCII range). -/
def jsUpper (s : String) : String :=
  String.mk (s.toList.map Char.toUpper)

/-- Does `l₂` occur as a contiguous sublist of `l₁`? -/
def listIncludes (hay needle : List Char) : Bool :=
  match hay with
  | [] => needle.isEmpty
  | _ :: t => needle.isPrefixOf hay || listIncludes t needle

/-- `hay.includes(needle)` for strings. -/
def strIncludes (hay needle : String) : Bool :=
  listIncludes hay.toList needle.toList

/-- `v || dflt` for an optional JSON value and a string default: the value
itself when truthy, the default string otherwise. -/
def jsOrDefault (v : Option Json) (dflt : String) : Json :=
  match v with
  | some j => if j.truthy then j else Json.str dflt
  | none => Json.str dflt

/-- Optional chaining `a?.k`: `undefined` when `a` is absent or `null`,
a property read otherwise. -/
def jsOptChain (v : Option Json) (k : String) : Option Json :=
  match v with
  | none => none
  | some .null => none
  | some j => j.getProp k

/-- In-place update of a JavaScript object / `Map` association list: an
existing key keeps its position and gets the new value, a fresh key is
appended at the end. -/
def upsert (m : List (String × α)) (k : String) (f : Option α → α) : List (String × α) :=
  match m with
  | [] => [(k, f none)]
  | (k', v) :: rest => if k' = k then (k', f (some v)) :: rest else (k', v) :: upsert rest k f

/-- `m[k] = (m[k] || 0) + 1` on a counting object. -/
def incr (m : List (String × Nat)) (k : String) : List (String × Nat) :=
  upsert m k fun v => (v.getD 0) + 1

/-- `Set.prototype.add`: append if not already present (insertion order). -/
def setAdd (l : List String) (x : String) : List String :=
  if l.contains x then l else l ++ [x]

/-- Code-unit lexicographic string order, as used by the default
`Array.prototype.sort()` comparison. -/
def charListLe : List Char → List Char → Bool
  | [], _ => true
  | _ :: _, [] => false
  | a :: as, b :: bs =>
    if a.toNat < b.toNat then true
    else if b.toNat < a.toNat then false
    else charListLe as bs

/-- Insertion into a sorted list of strings, for modelling
`Array.prototype.sort()` on the de-duplicated method set. -/
def insertSorted (x : String) : List String → List String
  | [] => [x]
  | y :: ys => if charListLe x.toList y.toList then x :: y :: ys else y :: insertSorted x ys

/-- Sort a list of strings lexicographically (the default JS sort on the
ASCII method names involved). -/
def sortStrings (l : List String) : List String :=
  l.foldr insertSorted []

/-- Sum of the values of a counting object. -/
def sumVals (m : List (String × Nat)) : Nat :=
  (m.map Prod.snd).sum

/-- One fuel-indexed pass of the global regex replace
`path.replace(/\x7b[^\x7d]+\x7d/g, "\x7bid\x7d")`: at each `{`, a non-empty
run of non-`}` characters followed by `}` is replaced by the literal
characters `{id}`; otherwise the character is copied and scanning resumes
one position later.  The fuel (at least the list length) only makes the
skip past a replaced token structural. -/
def normFuel : Nat → List Char → List Char
  | _, [] => []
  | 0, l => l
  | fuel + 1, c :: rest =>
    if c = '{' then
      match rest.dropWhile (fun d => d != '}') with
      | _ :: rest' =>
        if (rest.takeWhile (fun d => d != '}')).isEmpty then c :: normFuel fuel rest
        else '{' :: 'i' :: 'd' :: '}' :: normFuel fuel rest'
      | [] => c :: normFuel fuel rest
    else c :: normFuel fuel rest

/-- `path.replace(/\x7b[^\x7d]+\x7d/g, "\x7bid\x7d")` on a character list. -/
def normalizeChars (l : List Char) : List Char :=
  normFuel l.length l

/-- Path-pattern normalization used by `getApiStats` for `commonPaths`. -/
def normalizePathStr (s : String) : String :=
  String.mk (normalizeChars s.toList)

/-- A hexadecimal digit (lowercase). -/
def hexDigit (d : Nat) : Char :=
  if d < 10 then Char.ofNat (48 + d) else Char.ofNat (87 + d)

/-- JSON string escaping of one character, as `JSON.stringify` performs. -/
def escChar (c : Char) : String :=
  if c = '"' then "\\\""
  else if c = '\\' then "\\\\"
  else if c = '\n' then "\\n"
  else if c = '\t' then "\\t"
  else if c = '\r' then "\\r"
  else if c = Char.ofNat 8 then "\\b"
  else if c = Char.ofNat 12 then "\\f"
  else if c.toNat < 32 then "\\u00" ++ String.mk [hexDigit (c.toNat / 16), hexDigit (c.toNat % 16)]
  else String.mk [c]

/-- A JSON string literal with escapes, as `JSON.stringify` renders it. -/
def quoteStr (s : String) : String :=
  "\"" ++ String.join (s.toList.map escChar) ++ "\""

/- `JSON.stringify(v, null, 2)`: pretty-printed JSON with two-space
indentation; `ind` is the indentation of the surrounding context. -/
mutual

def jsonStringify : Json → String → String
  | .null, _ => "null"
  | .bool b, _ => cond b "true" "false"
  | .num n, _ => Int.repr n
  | .str s, _ => quoteStr s
  | .arr elems, ind =>
    match elems with
    | .nil => "[]"
    | _ => "[\n" ++ stringifyArrItems elems (ind ++ "  ") ++ "\n" ++ ind ++ "]"
  | .obj fields, ind =>
    match fields with
    | .nil => "\x7b\x7d"
    | _ => "\x7b\n" ++ stringifyObjItems fields (ind ++ "  ") ++ "\n" ++ ind ++ "\x7d"

def stringifyArrItems : JsonArr → String → String
  | .nil, _ => ""
  | .cons h .nil, ind => ind ++ jsonStringify h ind
  | .cons h t, ind => ind ++ jsonStringify h ind ++ ",\n" ++ stringifyArrItems t ind

def stringifyObjItems : JsonObj → String → String
  | .nil, _ => ""
  | .cons k v .nil, ind => ind ++ quoteStr k ++ ": " ++ jsonStringify v ind
  | .cons k v t, ind => ind ++ quoteStr k ++ ": " ++ jsonStringify v ind ++ ",\n" ++ stringifyObjItems t ind

end

/-!
## The engine's data model

`OpenAPISpec` mirrors the TypeScript interface of the same name: the raw
parsed document plus the `info`, `paths` and `components` fields the loader
copies out of it (`none` models an absent field / `undefined`).  The
provenance tag `source` is carried by the code but read by no query
operation, so it is omitted here.
-/

structure OpenAPISpec where
  filename : String
  spec : Json
  info : Option Json
  paths : Option Json
  components : Option Json

/-- The `(path, pathItem)` entries iterated by `searchEndpoints` and
`getApiStats`: both guard with the truthiness of `spec.paths` before
calling `Object.entries`. -/
def OpenAPISpec.pathEntries (s : OpenAPISpec) : List (String × Json) :=
  match s.paths with
  | some p => if p.truthy then p.jsEntries else []
  | none => []

structure ApiSummary where
  filename : String
  title : Json
  version : Json
  description : Json
  endpointCount : Nat

structure SearchResult where
  filename : String
  api_title : Option Json
  path : String
  method : String
  summary : Option Json
  description : Option Json
  operationId : Option Json

structure StatsApi where
  filename : String
  title : Option Json
  version : Option Json
  endpointCount : Nat
  methods : List String

structure ApiStats where
  totalApis : Nat
  totalEndpoints : Nat
  methodCounts : List (String × Nat)
  commonPaths : List (String × Nat)
  versions : List (String × Nat)
  apis : List StatsApi

structure Inconsistency where
  type : String
  message : String
  details : List (String × List String)

structure SchemaComparison where
  filename : String
  api : Option Json
  schemaName : String
  schema : Json

/-!
## Query operations (`OpenAPIAnalyzer` methods)
-/

/-- `listAllSpecs()`. -/
def listAllSpecs (specs : List OpenAPISpec) : List ApiSummary :=
  specs.map fun s =>
    { filename := s.filename
      title := jsOrDefault (jsOptChain s.info "title") "No title"
      version := jsOrDefault (jsOptChain s.info "version") "No version"
      description := jsOrDefault (jsOptChain s.info "description") "No description"
      endpointCount :=
        match s.paths with
        | some p => if p.truthy then p.jsKeys.length else 0
        | none => 0 }

/-- `getSpecByFilename(filename)`: the raw document of the first spec with
that filename, `none` (for `null`) when there is no match. -/
def getSpecByFilename (specs : List OpenAPISpec) (filename : String) : Option Json :=
  (specs.find? fun s => s.filename == filename).map OpenAPISpec.spec

/-- `operationObj.summary || ''` (etc.) as it ends up inside the
whitespace-`join`ed searchable text. -/
def opText (op : Json) (k : String) : String :=
  match op.getProp k with
  | some j => if j.truthy then j.jsToString else ""
  | none => ""

/-- `searchEndpoints(query)`.  A path-item entry is considered when
`typeof value === "object" && value !== null` — note arrays pass this check. -/
def searchEndpoints (specs : List OpenAPISpec) (query : String) : List SearchResult :=
  specs.flatMap fun spec =>
    spec.pathEntries.flatMap fun pe =>
      pe.2.jsEntries.filterMap fun me =>
        if me.2.isObjectLike then
          if strIncludes
              (jsLower (pe.1 ++ " " ++ me.1 ++ " " ++ opText me.2 "summary" ++ " "
                ++ opText me.2 "description" ++ " " ++ opText me.2 "operationId"))
              (jsLower query) then
            some
              { filename := spec.filename
                api_title := jsOptChain spec.info "title"
                path := pe.1
                method := jsUpper me.1
                summary := me.2.getProp "summary"
                description := me.2.getProp "description"
                operationId := me.2.getProp "operationId" }
          else none
        else none

/-- The recognized HTTP verbs of `getApiStats`. -/
def httpMethods : List String := ["get", "post", "put", "delete", "patch", "options", "head"]

/-- The object key a spec's version is counted under:
`spec.info?.version || "unknown"`, stringified as a property key. -/
def versionKeyOf (s : OpenAPISpec) : String :=
  (jsOrDefault (jsOptChain s.info "version") "unknown").jsToString

/-- `httpMethods.includes(method.toLowerCase())`. -/
def isRecognized (m : String) : Bool :=
  httpMethods.contains (jsLower m)

/-- The inner loop of `getApiStats` over the keys of one path item:
`(endpointCount, apiMethods, methodCounts)` after seeing method key `m`. -/
def methodFold (acc : Nat × List String × List (String × Nat)) (m : String) :
    Nat × List String × List (String × Nat) :=
  if isRecognized m then
    (acc.1 + 1, setAdd acc.2.1 (jsUpper m), incr acc.2.2 (jsUpper m))
  else acc

/-- The loop of `getApiStats` over one spec's `(path, pathItem)` entries:
the method-key loop followed by the `commonPaths` bump for the path. -/
def pathFold (acc : (Nat × List String × List (String × Nat)) × List (String × Nat))
    (pe : String × Json) :
    (Nat × List String × List (String × Nat)) × List (String × Nat) :=
  (pe.2.jsKeys.foldl methodFold acc.1, incr acc.2 (normalizePathStr pe.1))

/-- The body of `getApiStats`'s outer loop for one spec. -/
def statsStep (stats : ApiStats) (s : OpenAPISpec) : ApiStats :=
  let acc := s.pathEntries.foldl pathFold ((0, [], stats.methodCounts), stats.commonPaths)
  { totalApis := stats.totalApis
    totalEndpoints := stats.totalEndpoints + acc.1.1
    methodCounts := acc.1.2.2
    commonPaths := acc.2
    versions := incr stats.versions (versionKeyOf s)
    apis := stats.apis ++
      [{ filename := s.filename
         title := jsOptChain s.info "title"
         version := jsOptChain s.info "version"
         endpointCount := acc.1.1
         methods := sortStrings acc.1.2.1 }] }

/-- `getApiStats()`. -/
def getApiStats (specs : List OpenAPISpec) : ApiStats :=
  specs.foldl statsStep
    { totalApis := specs.length, totalEndpoints := 0, methodCounts := [],
      commonPaths := [], versions := [], apis := [] }

/-- `Map` key equality (SameValueZero) for the values that can appear as
security-scheme `type`s.  Primitives compare structurally; two *distinct*
parse-tree objects are never the same reference, and a tree contains each
node once, so object-valued keys never collide — modelled as never equal. -/
def jsonKeyEq : Json → Json → Bool
  | .null, .null => true
  | .bool a, .bool b => a == b
  | .num a, .num b => a == b
  | .str a, .str b => a == b
  | _, _ => false

/-- `authSchemes.get(type).push(qualifiedName)` with
`authSchemes.set(type, [])` first when the key is new (a JS `Map`:
existing keys keep their position, new keys append). -/
def mapPush (m : List (Json × List String)) (ty : Json) (q : String) :
    List (Json × List String) :=
  match m with
  | [] => [(ty, [q])]
  | (k, vs) :: rest =>
    if jsonKeyEq k ty then (k, vs ++ [q]) :: rest else (k, vs) :: mapPush rest ty q

/-- The `securitySchemes` entries scanned by `findInconsistencies`
(guarded by the truthiness of `spec.spec.components?.securitySchemes`). -/
def securitySchemesOf (s : OpenAPISpec) : List (String × Json) :=
  match jsOptChain (s.spec.getProp "components") "securitySchemes" with
  | some v => if v.truthy then v.jsEntries else []
  | none => []

/-- One spec's `(type, "filename: schemeName")` contributions (schemes with
falsy `type` are skipped). -/
def specAuthOccs (s : OpenAPISpec) : List (Json × String) :=
  (securitySchemesOf s).filterMap fun kv =>
    match kv.2.getProp "type" with
    | some t => if t.truthy then some (t, s.filename ++ ": " ++ kv.1) else none
    | none => none

/-- The whole registry's `authSchemes` map. -/
def authSchemesMap (specs : List OpenAPISpec) : List (Json × List String) :=
  (specs.flatMap specAuthOccs).foldl (fun m o => mapPush m o.1 o.2) []

/-- `Object.fromEntries` of the `authSchemes` map: keys are stringified
and a repeated stringified key keeps its first position but takes the last
value. -/
def fromEntriesStr (l : List (Json × List String)) : List (String × List String) :=
  l.foldl (fun m kv => upsert m kv.1.jsToString (fun _ => kv.2)) []

/-- `findInconsistencies()`. -/
def findInconsistencies (specs : List OpenAPISpec) : List Inconsistency :=
  if (authSchemesMap specs).length > 1 then
    [{ type := "authentication"
       message := "Multiple authentication schemes found across APIs"
       details := fromEntriesStr (authSchemesMap specs) }]
  else []

/-- The body of `compareSchemas`'s inner loop: the record pushed for one
schema name of one spec (`none` when the schema entry is absent or falsy). -/
def schemaRecordFor (spec : OpenAPISpec) (sch : Json) (n : String) : Option SchemaComparison :=
  match sch.getProp n with
  | some v =>
    if v.truthy then
      some { filename := spec.filename, api := jsOptChain spec.info "title",
             schemaName := n, schema := v }
    else none
  | none => none

/-- The body of `compareSchemas`'s loop for one spec: guarded by the
truthiness of `spec.components?.schemas`, one record per name in
`schemaNames` whose schema entry is truthy. -/
def specSchemaRecords (spec : OpenAPISpec) (schemaNames : List String) :
    List SchemaComparison :=
  match jsOptChain spec.components "schemas" with
  | some sch =>
    if sch.truthy then schemaNames.filterMap (schemaRecordFor spec sch)
    else []
  | none => []

/-- `compareSchemas(schema1Name, schema2Name)`. -/
def compareSchemas (specs : List OpenAPISpec) (schema1Name schema2Name : String) :
    List SchemaComparison :=
  let schemaNames := if schema2Name != "" then [schema1Name, schema2Name] else [schema1Name]
  specs.flatMap fun spec => specSchemaRecords spec schemaNames

/-!
## Tool dispatcher cases relevant to the claims
-/

/-- The `get_api_spec` case of the tool dispatcher: the text payload it
returns for a given (possibly missing) `filename` argument. -/
def callGetApiSpec (specs : List OpenAPISpec) (filename : Option String) : String :=
  match filename with
  | none => "Error: filename parameter is required"
  | some f =>
    if f = "" then "Error: filename parameter is required"
    else
      match getSpecByFilename specs f with
      | none => "API spec not found: " ++ f
      | some doc =>
        if doc.truthy then jsonStringify doc "" else "API spec not found: " ++ f

/-- Outcome of the `compare_schemas` dispatcher case, before JSON
serialization. -/
inductive CompareToolResult where
  | missingArg : CompareToolResult
  | ok (records : List SchemaComparison) : CompareToolResult

/-- The `compare_schemas` case of the tool dispatcher:
`const schema2 = (args.schema2 as string) || schema1` substitutes `schema1`
for a missing or empty `schema2` before calling `compareSchemas`. -/
def callCompareSchemas (specs : List OpenAPISpec) (schema1 schema2 : Option String) :
    CompareToolResult :=
  let s1 := (schema1.getD "")
  let s2 := match schema2 with
    | some s => if s = "" then s1 else s
    | none => s1
  if s1 = "" then .missingArg else .ok (compareSchemas specs s1 s2)

/-- The records of a `compare_schemas` tool outcome. -/
def compareToolRecords (specs : List OpenAPISpec) (schema1 schema2 : Option String) :
    List SchemaComparison :=
  match callCompareSchemas specs schema1 schema2 with
  | .missingArg => []
  | .ok records => records

/-!
## Stateful wrappers

The TypeScript engine is a class whose only mutable state is
`this.specs` (and the load bookkeeping).  `loadSpecs` reassigns it; the
query methods below only read it, which the explicit state-passing form
makes visible: each returns the state it was given.
-/

structure AnalyzerState where
  specs : List OpenAPISpec

def listAllSpecsM (st : AnalyzerState) : AnalyzerState × List ApiSummary :=
  (st, listAllSpecs st.specs)

def getSpecByFilenameM (st : AnalyzerState) (filename : String) :
    AnalyzerState × Option Json :=
  (st, getSpecByFilename st.specs filename)

def searchEndpointsM (st : AnalyzerState) (query : String) :
    AnalyzerState × List SearchResult :=
  (st, searchEndpoints st.specs query)

def getApiStatsM (st : AnalyzerState) : AnalyzerState × ApiStats :=
  (st, getApiStats st.specs)

def findInconsistenciesM (st : AnalyzerState) : AnalyzerState × List Inconsistency :=
  (st, findInconsistencies st.specs)

def compareSchemasM (st : AnalyzerState) (schema1Name schema2Name : String) :
    AnalyzerState × List SchemaComparison :=
  (st, compareSchemas st.specs schema1Name schema2Name)

/-!
## Derived views used by the proofs
-/

/-- The upper-cased recognized method keys of a path item, in order. -/
def recognizedUppers (ms : List String) : List String :=
  (ms.filter isRecognized).map jsUpper

/-- All recognized (upper-cased) method occurrences of one spec. -/
def specRecognizedUppers (s : OpenAPISpec) : List String :=
  s.pathEntries.flatMap fun pe => recognizedUppers pe.2.jsKeys

/-- The normalized path of each `(path, pathItem)` entry of one spec. -/
def specNormPaths (s : OpenAPISpec) : List String :=
  s.pathEntries.map fun pe => normalizePathStr pe.1

/-- The per-spec record `getApiStats` pushes onto `apis`. -/
def statsApiOf (s : OpenAPISpec) : StatsApi :=
  { filename := s.filename
    title := jsOptChain s.info "title"
    version := jsOptChain s.info "version"
    endpointCount := (specRecognizedUppers s).length
    methods := sortStrings ((specRecognizedUppers s).foldl setAdd []) }

/-- Hypothesis under which the engine's `Object.keys`/`Object.entries`
calls on path items cannot throw: no path item is `null`.  (In JavaScript
`Object.keys(null)` throws a `TypeError`; the model returns `[]`, so
registry-quantified theorems restrict to this domain.) -/
def RegistrySafe (specs : List OpenAPISpec) : Prop :=
  ∀ s ∈ specs, ∀ pe ∈ s.pathEntries, pe.2.isNull = false

instance : DecidablePred RegistrySafe := fun _ =>
  inferInstanceAs (Decidable (∀ _ ∈ _, ∀ _ ∈ _, _))

/-!
## Path templates: spec-level view of normalization

A path template is a sequence of pieces: literal runs (containing no `{`)
and brace-delimited parameter tokens (non-empty, containing no `}`).
-/

inductive PathPiece where
  | lit (s : String) : PathPiece
  | param (s : String) : PathPiece

/-- The characters a piece renders to. -/
def renderPieceChars : PathPiece → List Char
  | .lit s => s.toList
  | .param s => '{' :: s.toList ++ ['}']

/-- The rendered template string of a piece list. -/
def renderPath (ps : List PathPiece) : String :=
  String.mk (ps.flatMap renderPieceChars)

/-- Replace a parameter's name by the literal `id`. -/
def collapsePiece : PathPiece → PathPiece
  | .lit s => .lit s
  | .param _ => .param "id"

/-- Well-formedness of a piece: literals contain no `{`, parameter names
are non-empty and contain no `}`. -/
def PieceWF : PathPiece → Bool
  | .lit s => s.toList.all fun c => c != '{'
  | .param s => (!s.toList.isEmpty) && s.toList.all fun c => c != '}'

/-- One `(spec, path, method, operation)` entry scanned by
`searchEndpoints`. -/
structure EndpointEntry where
  spec : OpenAPISpec
  path : String
  method : String
  op : Json

/-- Every entry `searchEndpoints` scans, in scan order. -/
def endpointEntries (specs : List OpenAPISpec) : List EndpointEntry :=
  specs.flatMap fun s =>
    s.pathEntries.flatMap fun pe =>
      pe.2.jsEntries.map fun me => ⟨s, pe.1, me.1, me.2⟩

/-- The lower-cased whitespace-joined searchable text of an entry. -/
def entrySearchText (e : EndpointEntry) : String :=
  jsLower (e.path ++ " " ++ e.method ++ " " ++ opText e.op "summary" ++ " "
    ++ opText e.op "description" ++ " " ++ opText e.op "operationId")

/-- Whether an entry produces a search hit for `query`: its value must be a
non-null object **or array** (JavaScript `typeof x === "object"`), and the
searchable text must contain the lower-cased query. -/
def entryMatches (query : String) (e : EndpointEntry) : Bool :=
  e.op.isObjectLike && strIncludes (entrySearchText e) (jsLower query)

/-- The result record an entry produces (method upper-cased; `summary`,
`description`, `operationId` carried over verbatim, absent when absent). -/
def entryResult (e : EndpointEntry) : SearchResult :=
  { filename := e.spec.filename
    api_title := jsOptChain e.spec.info "title"
    path := e.path
    method := jsUpper e.method
    summary := e.op.getProp "summary"
    description := e.op.getProp "description"
    operationId := e.op.getProp "operationId" }

/-- Does a spec define a (truthy) schema of this name, the condition under
which `compareSchemas` emits a record for it? -/
def definesSchemaB (s : OpenAPISpec) (n : String) : Bool :=
  match jsOptChain s.components "schemas" with
  | some sch =>
    sch.truthy &&
      (match sch.getProp n with
       | some v => v.truthy
       | none => false)
  | none => false

/-- The schema value a record carries (junk `null` outside the guarded
cases, where it is never used). -/
def schemaValueAt (s : OpenAPISpec) (n : String) : Json :=
  match jsOptChain s.components "schemas" with
  | some sch =>
    match sch.getProp n with
    | some v => v
    | none => Json.null
  | none => Json.null

/-- The record `compareSchemas` emits for a defining spec and a name. -/
def mkSchemaRecord (s : OpenAPISpec) (n : String) : SchemaComparison :=
  { filename := s.filename
    api := jsOptChain s.info "title"
    schemaName := n
    schema := schemaValueAt s n }

/-- The two-name block one spec contributes to `compareSchemas`. -/
def specNameBlock (s : OpenAPISpec) (n₁ n₂ : String) : List SchemaComparison :=
  (if definesSchemaB s n₁ then [mkSchemaRecord s n₁] else []) ++
  (if definesSchemaB s n₂ then [mkSchemaRecord s n₂] else [])

/-- Is the value a JSON string? -/
def Json.isStr : Json → Bool
  | .str _ => true
  | _ => false

/-- String-keyed view of one `Map` push. -/
def pushStr (m : List (String × List String)) (k q : String) : List (String × List String) :=
  upsert m k fun vs => (vs.getD []) ++ [q]

/-- Lift a string-keyed grouping map to the `Json`-keyed one the code
builds. -/
def liftStrMap (m : List (String × List String)) : List (Json × List String) :=
  m.map fun kv => (Json.str kv.1, kv.2)

/-- The `(type, qualifiedName)` occurrences with string-valued types (all
of them, under the `StrTyped` hypothesis). -/
def authTypeOcc (specs : List OpenAPISpec) : List (String × String) :=
  (specs.flatMap specAuthOccs).filterMap fun o =>
    match o.1 with
    | Json.str t => some (t, o.2)
    | _ => none

/-- Hypothesis: every observed security-scheme `type` is a string (as the
OpenAPI data model prescribes).  `Map` keys of other shapes would compare
by reference, which a structural model cannot express. -/
def StrTyped (specs : List OpenAPISpec) : Prop :=
  ∀ o ∈ specs.flatMap specAuthOccs, o.1.isStr = true

instance : DecidablePred StrTyped := fun _ =>
  inferInstanceAs (Decidable (∀ _ ∈ _, _))

/-- The string-keyed grouping map. -/
def strAuthMap (specs : List OpenAPISpec) : List (String × List String) :=
  (authTypeOcc specs).foldl (fun m o => pushStr m o.1 o.2) []

/-!
## Claim-side definitions for the two endpoint counts
-/

/-- Well-formed `paths`: absent, or a JSON object whose keys are unique
(as JavaScript objects guarantee) and whose path items are plain objects. -/
def pathsWF (s : OpenAPISpec) : Bool :=
  match s.paths with
  | none => true
  | some (Json.obj fields) =>
    decide ((fields.toList.map Prod.fst).Nodup) &&
      (fields.toList.all fun pe => pe.2.isPlainObj)
  | some _ => false

/-- Spec wording for `list_apis`: the number of distinct path-template keys
of the `paths` map (0 when absent). -/
def distinctPathKeyCount (s : OpenAPISpec) : Nat :=
  match s.paths with
  | some (Json.obj fields) => ((fields.toList.map Prod.fst).dedup).length
  | _ => 0

/-- All `(path, method)` pairs of a spec's paths map. -/
def specPathMethodPairs (s : OpenAPISpec) : List (String × String) :=
  match s.paths with
  | some (Json.obj fields) =>
    fields.toList.flatMap fun pe =>
      match pe.2 with
      | Json.obj ops => (ops.toList.map Prod.fst).map fun m => (pe.1, m)
      | _ => []
  | _ => []

/-- Spec wording for `get_api_stats().apis[]`: the number of
`(path, method)` pairs whose method name case-insensitively matches a
recognized HTTP verb. -/
def recognizedPairCount (s : OpenAPISpec) : Nat :=
  ((specPathMethodPairs s).filter fun pm => isRecognized pm.2).length

/-!
## Concrete registries used by witnesses and counterexamples
-/

/-- A minimal raw document. -/
def wDoc : Json := Json.jobj [("openapi", Json.str "3.0.0")]

/-- A path item holding an (array-valued) `parameters` field next to a
`get` operation. -/
def wParamsItem : Json :=
  Json.jobj
    [ ("parameters", Json.jarr [])
    , ("get", Json.jobj [("summary", Json.str "Get all users")]) ]

/-- A spec whose `/users` path item carries `parameters`. -/
def wUsers : OpenAPISpec :=
  { filename := "test.json"
    spec := wDoc
    info := some (Json.jobj [("title", Json.str "Test API")])
    paths := some (Json.jobj [("/users", wParamsItem)])
    components := none }

/-- The `commonPaths` scenario registry: `/a/{x}` with `get`, `/a/{y}`
with `post`. -/
def wStats : OpenAPISpec :=
  { filename := "c5.json"
    spec := wDoc
    info := none
    paths := some (Json.jobj
      [ ("/a/\x7bx\x7d", Json.jobj [("get", Json.jobj [])])
      , ("/a/\x7by\x7d", Json.jobj [("post", Json.jobj [])]) ])
    components := none }

/-- A spec with no `paths`. -/
def wNoPaths : OpenAPISpec :=
  { filename := "empty.json"
    spec := wDoc
    info := some (Json.jobj [("title", Json.str "Empty")])
    paths := none
    components := none }

/-- A spec defining `User` and `Product` schemas. -/
def wUser1 : OpenAPISpec :=
  { filename := "api1.json"
    spec := wDoc
    info := some (Json.jobj [("title", Json.str "API 1")])
    paths := none
    components := some (Json.jobj
      [ ("schemas", Json.jobj
          [ ("User", Json.jobj [("type", Json.str "object")])
          , ("Product", Json.jobj [("type", Json.str "object")]) ]) ]) }

/-- A spec defining only a `User` schema. -/
def wUser2 : OpenAPISpec :=
  { filename := "api2.json"
    spec := wDoc
    info := some (Json.jobj [("title", Json.str "API 2")])
    paths := none
    components := some (Json.jobj
      [ ("schemas", Json.jobj [("User", Json.jobj [("type", Json.str "object")])]) ]) }

/-- A spec declaring an `http` security scheme. -/
def wAuth1 : OpenAPISpec :=
  { filename := "a1.json"
    spec := Json.jobj
      [ ("components", Json.jobj
          [ ("securitySchemes", Json.jobj
              [ ("bearerAuth", Json.jobj [("type", Json.str "http")]) ]) ]) ]
    info := none
    paths := none
    components := none }

/-- A spec declaring an `apiKey` security scheme. -/
def wAuth2 : OpenAPISpec :=
  { filename := "a2.json"
    spec := Json.jobj
      [ ("components", Json.jobj
          [ ("securitySchemes", Json.jobj
              [ ("apiKey", Json.jobj [("type", Json.str "apiKey")]) ]) ]) ]
    info := none
    paths := none
    components := none }

/-- Hypothesis under which `schemeObj.type` cannot throw: no security
scheme value is `null`. -/
def SchemesSafe (specs : List OpenAPISpec) : Prop :=
  ∀ s ∈ specs, ∀ kv ∈ securitySchemesOf s, kv.2.isNull = false

instance : DecidablePred SchemesSafe := fun _ =>
  inferInstanceAs (Decidable (∀ _ ∈ _, ∀ _ ∈ _, _))

/-!
## Association-object lemmas
-/

theorem lookup_cons (a k : String) (b : α) (es : List (String × α)) :
    List.lookup a ((k, b) :: es) = if a = k then some b else List.lookup a es := by
  by_cases h : a = k
  · simp [List.lookup, h]
  · have hb : (a == k) = false := by simp [h]
    simp [List.lookup, hb, h]

theorem lookup_upsert (m : List (String × α)) (k : String) (f : Option α → α) (k' : String) :
    (upsert m k f).lookup k' = if k' = k then some (f (m.lookup k)) else m.lookup k' := by
  induction m with
  | nil =>
    by_cases h : k' = k <;> simp [upsert, lookup_cons, h]
  | cons kv rest ih =>
    obtain ⟨k'', v⟩ := kv
    by_cases hk : k'' = k
    · subst hk
      by_cases hk' : k' = k'' <;> simp [upsert, lookup_cons, hk']
    · by_cases hk' : k' = k''
      · subst hk'
        simp [upsert, hk, lookup_cons, Ne.symm hk]
      · simp [upsert, hk, lookup_cons, hk', ih, Ne.symm hk]

theorem lookup_incr (m : List (String × Nat)) (k k' : String) :
    (incr m k).lookup k' =
      if k' = k then some ((m.lookup k).getD 0 + 1) else m.lookup k' := by
  simp [incr, lookup_upsert]

theorem sumVals_incr (m : List (String × Nat)) (k : String) :
    sumVals (incr m k) = sumVals m + 1 := by
  induction m with
  | nil => simp [incr, upsert, sumVals]
  | cons kv rest ih =>
    obtain ⟨k'', v⟩ := kv
    by_cases hk : k'' = k <;>
      simp [incr, upsert, hk, sumVals] at ih ⊢ <;> omega

theorem sumVals_foldl_incr (l : List String) (m : List (String × Nat)) :
    sumVals (l.foldl incr m) = sumVals m + l.length := by
  induction l generalizing m with
  | nil => simp
  | cons x t ih =>
    rw [List.foldl_cons, ih, sumVals_incr, List.length_cons]
    omega

theorem lookup_foldl_incr (l : List String) (m : List (String × Nat)) (k : String) :
    (l.foldl incr m).lookup k =
      if (m.lookup k).isNone ∧ l.count k = 0 then none
      else some ((m.lookup k).getD 0 + l.count k) := by
  induction l generalizing m with
  | nil =>
    cases h : m.lookup k <;> simp [h]
  | cons x t ih =>
    rw [List.foldl_cons, ih]
    by_cases hx : x = k
    · subst hx
      simp [lookup_incr, List.count_cons]
      omega
    · have hbx : (x == k) = false := by simp [hx]
      rw [lookup_incr, if_neg (Ne.symm hx)]
      have hc : List.count k (x :: t) = List.count k t := by
        rw [List.count_cons, hbx]
        simp
      rw [hc]

/-!
## `getApiStats` loop characterization
-/

theorem methodFold_foldl (ms : List String) (acc : Nat × List String × List (String × Nat)) :
    ms.foldl methodFold acc =
      (acc.1 + (recognizedUppers ms).length,
       (recognizedUppers ms).foldl setAdd acc.2.1,
       (recognizedUppers ms).foldl incr acc.2.2) := by
  induction ms generalizing acc with
  | nil => simp [recognizedUppers]
  | cons m t ih =>
    cases hm : isRecognized m
    · rw [List.foldl_cons, ih]
      simp [methodFold, hm, recognizedUppers, List.filter_cons]
    · rw [List.foldl_cons, ih]
      simp only [methodFold, hm, if_true, recognizedUppers, List.filter_cons, List.map_cons,
        List.length_cons, List.foldl_cons]
      refine Prod.ext ?_ (Prod.ext ?_ ?_) <;> simp
      omega

theorem pathFold_foldl (pes : List (String × Json))
    (acc : (Nat × List String × List (String × Nat)) × List (String × Nat)) :
    pes.foldl pathFold acc =
      ((acc.1.1 + (pes.flatMap fun pe => recognizedUppers pe.2.jsKeys).length,
        (pes.flatMap fun pe => recognizedUppers pe.2.jsKeys).foldl setAdd acc.1.2.1,
        (pes.flatMap fun pe => recognizedUppers pe.2.jsKeys).foldl incr acc.1.2.2),
       (pes.map fun pe => normalizePathStr pe.1).foldl incr acc.2) := by
  induction pes generalizing acc with
  | nil => simp
  | cons pe t ih =>
    rw [List.foldl_cons, ih]
    simp only [pathFold, methodFold_foldl, List.flatMap_cons, List.map_cons, List.foldl_cons,
      List.foldl_append, List.length_append]
    refine Prod.ext (Prod.ext ?_ (Prod.ext ?_ ?_)) ?_ <;> simp
    omega

theorem statsStep_foldl (specs : List OpenAPISpec) (st : ApiStats) :
    specs.foldl statsStep st =
      { totalApis := st.totalApis
        totalEndpoints := st.totalEndpoints + (specs.flatMap specRecognizedUppers).length
        methodCounts := (specs.flatMap specRecognizedUppers).foldl incr st.methodCounts
        commonPaths := (specs.flatMap specNormPaths).foldl incr st.commonPaths
        versions := (specs.map versionKeyOf).foldl incr st.versions
        apis := st.apis ++ specs.map statsApiOf } := by
  induction specs generalizing st with
  | nil => simp
  | cons s t ih =>
    rw [List.foldl_cons, ih]
    simp only [statsStep, pathFold_foldl, specRecognizedUppers, specNormPaths, statsApiOf,
      List.flatMap_cons, List.map_cons, List.foldl_cons, List.foldl_append, List.length_append,
      List.append_assoc, List.singleton_append, List.cons_append]
    refine ApiStats.mk.injEq .. ▸ ?_
    simp
    omega

theorem getApiStats_eq (specs : List OpenAPISpec) :
    getApiStats specs =
      { totalApis := specs.length
        totalEndpoints := (specs.flatMap specRecognizedUppers).length
        methodCounts := (specs.flatMap specRecognizedUppers).foldl incr []
        commonPaths := (specs.flatMap specNormPaths).foldl incr []
        versions := (specs.map versionKeyOf).foldl incr []
        apis := specs.map statsApiOf } := by
  rw [getApiStats, statsStep_foldl]
  simp

/-!
## Path-normalization lemmas
-/

theorem length_dropWhile_le (p : Char → Bool) (l : List Char) :
    (l.dropWhile p).length ≤ l.length := by
  induction l with
  | nil => simp
  | cons c t ih =>
    cases hp : p c
    · simp [List.dropWhile_cons, hp]
    · simp [List.dropWhile_cons, hp]
      omega

theorem normFuel_adequate (f₁ : Nat) : ∀ (f₂ : Nat) (l : List Char),
    l.length ≤ f₁ → l.length ≤ f₂ → normFuel f₁ l = normFuel f₂ l := by
  induction f₁ with
  | zero =>
    intro f₂ l h1 _
    have : l = [] := List.length_eq_zero.mp (Nat.le_zero.mp h1)
    subst this
    cases f₂ <;> rfl
  | succ f ih =>
    intro f₂ l h1 h2
    match l with
    | [] => cases f₂ <;> rfl
    | c :: rest =>
      match f₂ with
      | 0 => simp at h2
      | f₂' + 1 =>
        simp only [List.length_cons, Nat.add_le_add_iff_right] at h1 h2
        by_cases hc : c = '{'
        · cases hd : rest.dropWhile (fun d => d != '}') with
          | nil => simp [normFuel, hc, hd, ih f₂' rest h1 h2]
          | cons d rest' =>
            have hlen : rest'.length < rest.length := by
              have := length_dropWhile_le (fun d => d != '}') rest
              rw [hd] at this
              simp at this
              omega
            by_cases he : (rest.takeWhile (fun d => d != '}')).isEmpty
            · simp [normFuel, hc, hd, he, ih f₂' rest h1 h2]
            · simp [normFuel, hc, hd, he, ih f₂' rest' (by omega) (by omega)]
        · simp [normFuel, hc, ih f₂' rest h1 h2]

theorem normalizeChars_nil : normalizeChars [] = [] := rfl

theorem normalizeChars_cons_ne (c : Char) (t : List Char) (hc : c ≠ '{') :
    normalizeChars (c :: t) = c :: normalizeChars t := by
  simp [normalizeChars, normFuel, hc]

theorem takeWhile_name (name : List Char) (t : List Char) (h : ∀ c ∈ name, c ≠ '}') :
    (name ++ '}' :: t).takeWhile (fun d => d != '}') = name := by
  induction name with
  | nil => simp [List.takeWhile_cons]
  | cons c cs ih =>
    have hc : (c != '}') = true := by
      simpa using h c (List.mem_cons_self c cs)
    simp [List.takeWhile_cons, hc]
    exact ih fun d hd => h d (List.mem_cons_of_mem c hd)

theorem dropWhile_name (name : List Char) (t : List Char) (h : ∀ c ∈ name, c ≠ '}') :
    (name ++ '}' :: t).dropWhile (fun d => d != '}') = '}' :: t := by
  induction name with
  | nil => simp [List.dropWhile_cons]
  | cons c cs ih =>
    have hc : (c != '}') = true := by
      simpa using h c (List.mem_cons_self c cs)
    simp [List.dropWhile_cons, hc]
    exact ih fun d hd => h d (List.mem_cons_of_mem c hd)

theorem normalizeChars_param (name : List Char) (t : List Char) (hne : name ≠ [])
    (h : ∀ c ∈ name, c ≠ '}') :
    normalizeChars ('{' :: name ++ '}' :: t) = '{' :: 'i' :: 'd' :: '}' :: normalizeChars t := by
  have hlen : ('{' :: name ++ '}' :: t).length = (name.length + t.length + 1) + 1 := by
    simp
    omega
  have hemp : (name ++ '}' :: t).takeWhile (fun d => d != '}') = name := takeWhile_name name t h
  have hdrop : (name ++ '}' :: t).dropWhile (fun d => d != '}') = '}' :: t := dropWhile_name name t h
  rw [normalizeChars, hlen]
  show normFuel ((name.length + t.length + 1) + 1) ('{' :: (name ++ '}' :: t)) = _
  rw [normFuel, hdrop]
  simp only [hemp, List.isEmpty_eq_true, hne, if_true, if_false, reduceIte]
  rw [normFuel_adequate (name.length + t.length + 1) t.length t (by omega) (by omega)]
  rfl

theorem normalizeChars_lit (l : List Char) (t : List Char) (h : ∀ c ∈ l, c ≠ '{') :
    normalizeChars (l ++ t) = l ++ normalizeChars t := by
  induction l with
  | nil => simp
  | cons c cs ih =>
    have hc : c ≠ '{' := h c (List.mem_cons_self c cs)
    rw [List.cons_append, normalizeChars_cons_ne c _ hc,
      ih fun d hd => h d (List.mem_cons_of_mem c hd), List.cons_append]

theorem normalizeChars_no_brace (l : List Char) (h : ∀ c ∈ l, c ≠ '{') :
    normalizeChars l = l := by
  have := normalizeChars_lit l [] h
  simpa [normalizeChars_nil] using this


theorem normalizeChars_render (ps : List PathPiece) (h : ∀ p ∈ ps, PieceWF p = true) :
    normalizeChars (ps.flatMap renderPieceChars) =
      (ps.map collapsePiece).flatMap renderPieceChars := by
  induction ps with
  | nil => rfl
  | cons p rest ih =>
    have hp := h p (List.mem_cons_self p rest)
    have hrest := ih fun q hq => h q (List.mem_cons_of_mem p hq)
    cases p with
    | lit s =>
      have hs : ∀ c ∈ s.toList, c ≠ '{' := by
        intro c hc
        have := (List.all_eq_true.mp hp) c hc
        simpa using this
      simp only [List.flatMap_cons, List.map_cons, renderPieceChars, collapsePiece]
      rw [normalizeChars_lit _ _ hs, hrest]
    | param s =>
      have hne : s.toList ≠ [] := by
        rcases Bool.and_eq_true .. ▸ hp with ⟨h1, _⟩
        simpa using h1
      have hs : ∀ c ∈ s.toList, c ≠ '}' := by
        rcases Bool.and_eq_true .. ▸ hp with ⟨_, h2⟩
        intro c hc
        have := (List.all_eq_true.mp h2) c hc
        simpa using this
      simp only [List.flatMap_cons, List.map_cons, renderPieceChars, collapsePiece,
        List.cons_append, List.append_assoc, List.singleton_append, List.nil_append]
      rw [← List.cons_append, normalizeChars_param s.toList _ hne hs, hrest]
      rfl

/-- Spec-level statement: normalization replaces every parameter token by
`id`, leaving literals unchanged. -/
theorem normalizePath_render (ps : List PathPiece) (h : ∀ p ∈ ps, PieceWF p = true) :
    normalizePathStr (renderPath ps) = renderPath (ps.map collapsePiece) := by
  simp only [renderPath, normalizePathStr]
  rw [show (String.mk (ps.flatMap renderPieceChars)).toList = ps.flatMap renderPieceChars from rfl,
    normalizeChars_render ps h]

/-!
## `searchEndpoints` characterization
-/


theorem filter_flatMap (l : List α) (f : α → List β) (p : β → Bool) :
    (l.flatMap f).filter p = l.flatMap fun a => (f a).filter p := by
  induction l with
  | nil => rfl
  | cons a t ih => simp [List.flatMap_cons, List.filter_append, ih]

theorem map_flatMap' (l : List α) (f : α → List β) (g : β → γ) :
    (l.flatMap f).map g = l.flatMap fun a => (f a).map g := by
  induction l with
  | nil => rfl
  | cons a t ih => simp [List.flatMap_cons, ih]

theorem filterMap_eq_filter_map (l : List α) (p : α → Bool) (h : α → β) :
    l.filterMap (fun x => if p x then some (h x) else none) = (l.filter p).map h := by
  induction l with
  | nil => rfl
  | cons x t ih =>
    by_cases hp : p x <;> simp [List.filterMap_cons, List.filter_cons, hp, ih]

theorem searchEndpoints_eq_entries (specs : List OpenAPISpec) (q : String) :
    searchEndpoints specs q = ((endpointEntries specs).filter (entryMatches q)).map entryResult := by
  unfold searchEndpoints endpointEntries
  rw [filter_flatMap, map_flatMap']
  congr 1
  funext s
  rw [filter_flatMap, map_flatMap']
  congr 1
  funext pe
  rw [List.filter_map, List.map_map]
  rw [show ((fun me : String × Json =>
      if me.2.isObjectLike = true then
        if strIncludes
            (jsLower (pe.1 ++ " " ++ me.1 ++ " " ++ opText me.2 "summary" ++ " "
              ++ opText me.2 "description" ++ " " ++ opText me.2 "operationId"))
            (jsLower q) = true then
          some
            { filename := s.filename
              api_title := jsOptChain s.info "title"
              path := pe.1
              method := jsUpper me.1
              summary := me.2.getProp "summary"
              description := me.2.getProp "description"
              operationId := me.2.getProp "operationId" }
        else none
      else none)) = fun me : String × Json =>
        if (entryMatches q ∘ fun me : String × Json => EndpointEntry.mk s pe.1 me.1 me.2) me then
          some ((entryResult ∘ fun me : String × Json => EndpointEntry.mk s pe.1 me.1 me.2) me)
        else none from ?_]
  · exact filterMap_eq_filter_map _ _ _
  · funext me
    by_cases h1 : me.2.isObjectLike <;>
      by_cases h2 : strIncludes
        (jsLower (pe.1 ++ " " ++ me.1 ++ " " ++ opText me.2 "summary" ++ " "
          ++ opText me.2 "description" ++ " " ++ opText me.2 "operationId"))
        (jsLower q) <;>
      simp [entryMatches, entrySearchText, entryResult, h1, h2]

/-!
## `compareSchemas` characterization
-/


theorem specSchemaRecords_single (s : OpenAPISpec) (n : String) :
    specSchemaRecords s [n] = if definesSchemaB s n then [mkSchemaRecord s n] else [] := by
  unfold specSchemaRecords definesSchemaB mkSchemaRecord schemaValueAt
  cases h : jsOptChain s.components "schemas" with
  | none => simp
  | some sch =>
    cases ht : sch.truthy
    · simp [ht]
    · cases hv : sch.getProp n with
      | none => simp [ht, hv, schemaRecordFor]
      | some v => cases hvt : v.truthy <;> simp [ht, hv, hvt, schemaRecordFor]

theorem specSchemaRecords_append (s : OpenAPISpec) (ns₁ ns₂ : List String) :
    specSchemaRecords s (ns₁ ++ ns₂) = specSchemaRecords s ns₁ ++ specSchemaRecords s ns₂ := by
  unfold specSchemaRecords
  cases h : jsOptChain s.components "schemas" with
  | none => simp
  | some sch =>
    cases ht : sch.truthy
    · simp [ht]
    · simp [ht, List.filterMap_append]

theorem specSchemaRecords_pair (s : OpenAPISpec) (n₁ n₂ : String) :
    specSchemaRecords s [n₁, n₂] = specSchemaRecords s [n₁] ++ specSchemaRecords s [n₂] := by
  rw [show [n₁, n₂] = [n₁] ++ [n₂] from rfl]
  exact specSchemaRecords_append s [n₁] [n₂]

theorem flatMap_ite_singleton (l : List α) (p : α → Bool) (g : α → β) :
    (l.flatMap fun a => if p a then [g a] else []) = (l.filter p).map g := by
  induction l with
  | nil => rfl
  | cons a t ih =>
    by_cases hp : p a <;> simp [List.flatMap_cons, List.filter_cons, hp, ih]

theorem compareSchemas_single (specs : List OpenAPISpec) (n : String) :
    compareSchemas specs n "" =
      (specs.filter fun s => definesSchemaB s n).map fun s => mkSchemaRecord s n := by
  unfold compareSchemas
  simp only [bne_self_eq_false, if_false, Bool.false_eq_true]
  rw [show (fun spec => specSchemaRecords spec [n])
      = (fun spec => if definesSchemaB spec n then [mkSchemaRecord spec n] else []) from
    funext fun spec => specSchemaRecords_single spec n]
  exact flatMap_ite_singleton specs _ _


theorem compareSchemas_two (specs : List OpenAPISpec) (n₁ n₂ : String) (h : n₂ ≠ "") :
    compareSchemas specs n₁ n₂ = specs.flatMap fun s => specNameBlock s n₁ n₂ := by
  unfold compareSchemas
  have hb : (n₂ != "") = true := by simpa using h
  simp only [hb, if_true]
  refine congrArg _ (funext fun spec => ?_)
  rw [specSchemaRecords_pair, specSchemaRecords_single, specSchemaRecords_single]
  rfl

theorem schemaRecordFor_some (spec : OpenAPISpec) (sch : Json) (n : String)
    (r : SchemaComparison) (h : schemaRecordFor spec sch n = some r) :
    r.filename = spec.filename ∧ r.schemaName = n := by
  cases hv : sch.getProp n with
  | none => simp [schemaRecordFor, hv] at h
  | some v =>
    cases hvt : v.truthy
    · simp [schemaRecordFor, hv, hvt] at h
    · simp [schemaRecordFor, hv, hvt] at h
      subst h
      exact ⟨rfl, rfl⟩

theorem mem_specSchemaRecords (r : SchemaComparison) (s : OpenAPISpec) (ns : List String) :
    r ∈ specSchemaRecords s ns → r.filename = s.filename ∧ r.schemaName ∈ ns := by
  unfold specSchemaRecords
  cases h : jsOptChain s.components "schemas" with
  | none => simp
  | some sch =>
    cases ht : sch.truthy
    · simp [ht]
    · simp only [ht, if_true]
      intro hr
      obtain ⟨n, hn, hfn⟩ := List.mem_filterMap.mp hr
      rcases schemaRecordFor_some s sch n r hfn with ⟨h1, h2⟩
      exact ⟨h1, h2 ▸ hn⟩

theorem mem_flatMap_records_filename (r : SchemaComparison) (specs : List OpenAPISpec)
    (ns : List String) (hr : r ∈ specs.flatMap fun s => specSchemaRecords s ns) :
    r.filename ∈ specs.map OpenAPISpec.filename := by
  obtain ⟨s, hs, hrs⟩ := List.mem_flatMap.mp hr
  rcases mem_specSchemaRecords r s ns hrs with ⟨hf, _⟩
  exact hf ▸ List.mem_map_of_mem OpenAPISpec.filename hs

theorem mem_specNameBlock_filename (x : SchemaComparison) (s : OpenAPISpec) (n₁ n₂ : String)
    (hx : x ∈ specNameBlock s n₁ n₂) : x.filename = s.filename := by
  unfold specNameBlock at hx
  rcases List.mem_append.mp hx with hx1 | hx1
  · by_cases hd : definesSchemaB s n₁
    · simp [hd] at hx1
      rw [hx1]
      rfl
    · simp [hd] at hx1
  · by_cases hd : definesSchemaB s n₂
    · simp [hd] at hx1
      rw [hx1]
      rfl
    · simp [hd] at hx1

theorem mem_flatMap_block_filename (y : SchemaComparison) (t : List OpenAPISpec) (n₁ n₂ : String)
    (hy : y ∈ t.flatMap fun s => specNameBlock s n₁ n₂) :
    y.filename ∈ t.map OpenAPISpec.filename := by
  obtain ⟨s, hs, hys⟩ := List.mem_flatMap.mp hy
  rw [mem_specNameBlock_filename y s n₁ n₂ hys]
  exact List.mem_map_of_mem OpenAPISpec.filename hs

theorem pairwise_blocks (t : List OpenAPISpec) (n₁ n₂ : String) (hn : n₁ ≠ n₂)
    (hnodup : (t.map OpenAPISpec.filename).Nodup) :
    List.Pairwise (fun r r' => ¬(r.filename = r'.filename ∧ r.schemaName = r'.schemaName))
      (t.flatMap fun s => specNameBlock s n₁ n₂) := by
  induction t with
  | nil => simp
  | cons s rest ih =>
    rw [List.map_cons, List.nodup_cons] at hnodup
    rw [List.flatMap_cons]
    refine List.pairwise_append.mpr ⟨?_, ih hnodup.2, ?_⟩
    · unfold specNameBlock
      by_cases hd1 : definesSchemaB s n₁ <;> by_cases hd2 : definesSchemaB s n₂ <;>
        simp [hd1, hd2, mkSchemaRecord, hn]
    · intro x hx y hy hcon
      apply hnodup.1
      rw [← mem_specNameBlock_filename x s n₁ n₂ hx, hcon.1]
      exact mem_flatMap_block_filename y rest n₁ n₂ hy

theorem compareSchemas_pairwise (specs : List OpenAPISpec) (n₁ n₂ : String)
    (h2 : n₂ ≠ "") (hn : n₁ ≠ n₂) (hnodup : (specs.map OpenAPISpec.filename).Nodup) :
    List.Pairwise (fun r r' => ¬(r.filename = r'.filename ∧ r.schemaName = r'.schemaName))
      (compareSchemas specs n₁ n₂) := by
  rw [compareSchemas_two specs n₁ n₂ h2]
  exact pairwise_blocks specs n₁ n₂ hn hnodup

theorem compareSchemas_dup_length (specs : List OpenAPISpec) (n : String) (h : n ≠ "") :
    (compareSchemas specs n n).length =
      2 * ((specs.filter fun s => definesSchemaB s n).length) := by
  rw [compareSchemas_two specs n n h]
  induction specs with
  | nil => simp
  | cons s t ih =>
    rw [List.flatMap_cons, List.length_append, ih, List.filter_cons]
    by_cases hd : definesSchemaB s n
    · simp only [hd, if_true, specNameBlock, List.length_append, List.length_cons]
      simp
      omega
    · simp [hd, specNameBlock]

theorem callCompareSchemas_omitted (specs : List OpenAPISpec) (n : String) (h : n ≠ "") :
    callCompareSchemas specs (some n) none = .ok (compareSchemas specs n n) := by
  simp [callCompareSchemas, h]

/-!
## `findInconsistencies` characterization
-/


theorem mapPush_lift (m : List (String × List String)) (k q : String) :
    mapPush (liftStrMap m) (Json.str k) q = liftStrMap (pushStr m k q) := by
  induction m with
  | nil => simp [mapPush, liftStrMap, pushStr, upsert]
  | cons kv rest ih =>
    obtain ⟨k', vs⟩ := kv
    by_cases hk : k' = k
    · simp [mapPush, liftStrMap, pushStr, upsert, jsonKeyEq, hk]
    · simp only [mapPush, liftStrMap, pushStr, upsert, jsonKeyEq, hk, List.map_cons] at ih ⊢
      simp only [beq_iff_eq, hk, if_false]
      simpa [pushStr, liftStrMap] using ih

theorem authFold_lift (occs : List (Json × String)) (h : ∀ o ∈ occs, o.1.isStr = true) :
    ∀ m : List (String × List String),
      occs.foldl (fun m o => mapPush m o.1 o.2) (liftStrMap m) =
        liftStrMap ((occs.filterMap fun o =>
          match o.1 with
          | Json.str t => some (t, o.2)
          | _ => none).foldl (fun m o => pushStr m o.1 o.2) m) := by
  induction occs with
  | nil => intro m; rfl
  | cons o t ih =>
    intro m
    obtain ⟨ty, q⟩ := o
    have hstr := h (ty, q) (List.mem_cons_self _ t)
    cases ty with
    | str ts =>
      rw [List.foldl_cons, List.filterMap_cons]
      simp only
      rw [mapPush_lift]
      exact ih (fun o ho => h o (List.mem_cons_of_mem _ ho)) (pushStr m ts q)
    | null => simp [Json.isStr] at hstr
    | bool b => simp [Json.isStr] at hstr
    | num n => simp [Json.isStr] at hstr
    | arr xs => simp [Json.isStr] at hstr
    | obj fs => simp [Json.isStr] at hstr

theorem authSchemesMap_eq_lift (specs : List OpenAPISpec) (h : StrTyped specs) :
    authSchemesMap specs = liftStrMap (strAuthMap specs) := by
  unfold authSchemesMap strAuthMap authTypeOcc
  have := authFold_lift (specs.flatMap specAuthOccs) h []
  simpa [liftStrMap] using this

theorem lookup_pushStr (m : List (String × List String)) (k q k' : String) :
    (pushStr m k q).lookup k' =
      if k' = k then some ((m.lookup k).getD [] ++ [q]) else m.lookup k' := by
  simp [pushStr, lookup_upsert]

theorem lookup_foldl_pushStr (l : List (String × String)) (m : List (String × List String))
    (k : String) :
    ((l.foldl (fun m o => pushStr m o.1 o.2) m).lookup k) =
      if (m.lookup k).isNone ∧ (l.filter fun o => o.1 == k).isEmpty then none
      else some ((m.lookup k).getD [] ++ (l.filter fun o => o.1 == k).map Prod.snd) := by
  induction l generalizing m with
  | nil =>
    cases h : m.lookup k <;> simp [h]
  | cons o t ih =>
    obtain ⟨k₀, q⟩ := o
    rw [List.foldl_cons, ih]
    by_cases hk : k₀ = k
    · subst hk
      simp [lookup_pushStr, List.filter_cons]
    · have hbk : (k₀ == k) = false := by simp [hk]
      have hfc : List.filter (fun o => o.1 == k) ((k₀, q) :: t)
          = List.filter (fun o => o.1 == k) t := by
        rw [List.filter_cons]
        simp [hbk]
      rw [lookup_pushStr, if_neg (Ne.symm hk), hfc]

theorem keys_upsert (m : List (String × α)) (k : String) (f : Option α → α) :
    (upsert m k f).map Prod.fst =
      if k ∈ m.map Prod.fst then m.map Prod.fst else m.map Prod.fst ++ [k] := by
  induction m with
  | nil => simp [upsert]
  | cons kv rest ih =>
    obtain ⟨k', v⟩ := kv
    by_cases hk : k' = k
    · subst hk
      simp [upsert]
    · simp only [upsert, hk, if_false, List.map_cons]
      rw [ih]
      by_cases hmem : k ∈ rest.map Prod.fst <;>
        simp [hmem, Ne.symm hk, List.mem_cons]

theorem nodup_keys_upsert (m : List (String × α)) (k : String) (f : Option α → α)
    (h : (m.map Prod.fst).Nodup) : ((upsert m k f).map Prod.fst).Nodup := by
  rw [keys_upsert]
  by_cases hmem : k ∈ m.map Prod.fst
  · simpa [hmem] using h
  · simp only [hmem, if_false]
    simp [List.nodup_append, h, hmem]

theorem mem_keys_upsert (m : List (String × α)) (k : String) (f : Option α → α) (k' : String) :
    k' ∈ (upsert m k f).map Prod.fst ↔ k' ∈ m.map Prod.fst ∨ k' = k := by
  rw [keys_upsert]
  by_cases hmem : k ∈ m.map Prod.fst
  · simp only [hmem, if_true]
    constructor
    · exact Or.inl
    · rintro (h | rfl)
      · exact h
      · exact hmem
  · simp [hmem]

theorem nodup_keys_foldl_pushStr (l : List (String × String)) (m : List (String × List String))
    (h : (m.map Prod.fst).Nodup) :
    (((l.foldl (fun m o => pushStr m o.1 o.2) m)).map Prod.fst).Nodup := by
  induction l generalizing m with
  | nil => exact h
  | cons o t ih =>
    rw [List.foldl_cons]
    exact ih _ (nodup_keys_upsert _ _ _ h)

theorem mem_keys_foldl_pushStr (l : List (String × String)) (m : List (String × List String))
    (k : String) :
    k ∈ ((l.foldl (fun m o => pushStr m o.1 o.2) m).map Prod.fst) ↔
      k ∈ m.map Prod.fst ∨ k ∈ l.map Prod.fst := by
  induction l generalizing m with
  | nil => simp
  | cons o t ih =>
    rw [List.foldl_cons, ih]
    rw [show pushStr m o.1 o.2 = upsert m o.1 (fun vs => (vs.getD []) ++ [o.2]) from rfl]
    rw [mem_keys_upsert]
    simp [List.mem_cons]
    tauto

theorem upsert_fresh (m : List (String × α)) (k : String) (f : Option α → α)
    (h : k ∉ m.map Prod.fst) : upsert m k f = m ++ [(k, f none)] := by
  induction m with
  | nil => simp [upsert]
  | cons kv rest ih =>
    obtain ⟨k', v⟩ := kv
    simp only [List.map_cons, List.mem_cons] at h
    push_neg at h
    simp only [upsert, Ne.symm h.1, if_false, List.cons_append]
    rw [ih h.2]

theorem assignFold_append (m : List (String × α)) (hm : (m.map Prod.fst).Nodup) :
    ∀ acc : List (String × α), (∀ k ∈ m.map Prod.fst, k ∉ acc.map Prod.fst) →
      m.foldl (fun acc kv => upsert acc kv.1 fun _ => kv.2) acc = acc ++ m := by
  induction m with
  | nil => intro acc _; simp
  | cons kv t ih =>
    intro acc hfresh
    obtain ⟨k, v⟩ := kv
    rw [List.map_cons, List.nodup_cons] at hm
    rw [List.foldl_cons]
    have hk : k ∉ acc.map Prod.fst := hfresh k (by simp)
    rw [upsert_fresh acc k _ hk]
    rw [ih hm.2 (acc ++ [(k, v)]) ?_]
    · simp
    · intro k' hk'
      simp only [List.map_append, List.mem_append]
      push_neg
      refine ⟨hfresh k' (by simp [hk']), ?_⟩
      simp only [List.map_cons]
      intro hcon
      simp at hcon
      exact hm.1 (hcon ▸ hk')

theorem fromEntriesStr_lift (m : List (String × List String)) (hm : (m.map Prod.fst).Nodup) :
    fromEntriesStr (liftStrMap m) = m := by
  unfold fromEntriesStr liftStrMap
  rw [List.foldl_map]
  have : (fun (acc : List (String × List String)) (kv : String × List String) =>
      upsert acc (Json.str kv.1).jsToString fun _ => kv.2) =
      fun acc kv => upsert acc kv.1 fun _ => kv.2 := by
    funext acc kv
    rfl
  rw [this, assignFold_append m hm [] (by simp)]
  simp


theorem listAll_endpointCount_eq (s : OpenAPISpec) (hw : pathsWF s = true) :
    (match s.paths with
     | some p => if p.truthy then p.jsKeys.length else 0
     | none => 0) = distinctPathKeyCount s := by
  cases hp : s.paths with
  | none => simp [distinctPathKeyCount, hp]
  | some p =>
    cases p with
    | obj fields =>
      have hw' := hw
      simp only [pathsWF, hp, Bool.and_eq_true, decide_eq_true_eq] at hw'
      simp [distinctPathKeyCount, hp, Json.truthy, Json.jsKeys, Json.jsEntries,
        List.Nodup.dedup hw'.1]
    | null => simp [pathsWF, hp] at hw
    | bool b => simp [pathsWF, hp] at hw
    | num n => simp [pathsWF, hp] at hw
    | str str => simp [pathsWF, hp] at hw
    | arr elems => simp [pathsWF, hp] at hw

theorem spec_recognized_eq (s : OpenAPISpec) (hw : pathsWF s = true) :
    (specRecognizedUppers s).length = recognizedPairCount s := by
  cases hp : s.paths with
  | none =>
    simp [specRecognizedUppers, OpenAPISpec.pathEntries, hp, recognizedPairCount,
      specPathMethodPairs]
  | some p =>
    cases p with
    | obj fields =>
      have hw' := hw
      simp only [pathsWF, hp, Bool.and_eq_true, decide_eq_true_eq, List.all_eq_true] at hw'
      unfold specRecognizedUppers OpenAPISpec.pathEntries recognizedPairCount specPathMethodPairs
      rw [hp]
      simp only [Json.truthy, if_true, Json.jsEntries]
      have key : ∀ L : List (String × Json), (∀ pe ∈ L, pe.2.isPlainObj = true) →
          (L.flatMap fun pe => recognizedUppers pe.2.jsKeys).length =
            ((L.flatMap fun pe =>
              match pe.2 with
              | Json.obj ops => (ops.toList.map Prod.fst).map fun m => (pe.1, m)
              | _ => []).filter fun pm => isRecognized pm.2).length := by
        intro L hL
        induction L with
        | nil => rfl
        | cons pe rest ih =>
          have hpe := hL pe (List.mem_cons_self pe rest)
          have hrest := ih fun x hx => hL x (List.mem_cons_of_mem pe hx)
          cases hop : pe.2 with
          | obj ops =>
            rw [List.flatMap_cons, List.flatMap_cons, hop]
            dsimp only
            rw [List.length_append, List.filter_append, List.length_append, hrest]
            have hpred : ((fun pm : String × String => isRecognized pm.2) ∘
                fun m => ((pe.1, m) : String × String)) = isRecognized := by
              funext m
              rfl
            have hhd : (recognizedUppers (Json.obj ops).jsKeys).length =
                (((ops.toList.map Prod.fst).map fun m => (pe.1, m)).filter
                  fun pm => isRecognized pm.2).length := by
              rw [List.filter_map, List.length_map, hpred]
              simp [recognizedUppers, Json.jsKeys, Json.jsEntries]
            omega
          | null => rw [hop] at hpe; simp [Json.isPlainObj] at hpe
          | bool b => rw [hop] at hpe; simp [Json.isPlainObj] at hpe
          | num n => rw [hop] at hpe; simp [Json.isPlainObj] at hpe
          | str str => rw [hop] at hpe; simp [Json.isPlainObj] at hpe
          | arr elems => rw [hop] at hpe; simp [Json.isPlainObj] at hpe
      exact key fields.toList hw'.2
    | null => simp [pathsWF, hp] at hw
    | bool b => simp [pathsWF, hp] at hw
    | num n => simp [pathsWF, hp] at hw
    | str str => simp [pathsWF, hp] at hw
    | arr elems => simp [pathsWF, hp] at hw


/-!
## The claims
-/

/-- C1: for every loaded registry (with well-formed `paths` objects), the
two endpoint-count definitions hold simultaneously: in `listAllSpecs` each
summary's `endpointCount` is the number of distinct path-template keys of
that spec's `paths` map (0 when `paths` is absent, one per path however
many methods it has), while in `getApiStats` each `apis[]` entry's
`endpointCount` is the number of `(path, method)` pairs whose method name
case-insensitively matches one of the recognized HTTP verbs. -/
theorem c1_endpoint_count_definitions (specs : List OpenAPISpec)
    (hw : ∀ s ∈ specs, pathsWF s = true) :
    (listAllSpecs specs).map ApiSummary.endpointCount = specs.map distinctPathKeyCount ∧
    (getApiStats specs).apis.map StatsApi.endpointCount = specs.map recognizedPairCount := by
  constructor
  · unfold listAllSpecs
    rw [List.map_map]
    refine List.map_congr_left fun s hs => ?_
    exact listAll_endpointCount_eq s (hw s hs)
  · rw [getApiStats_eq]
    show (specs.map statsApiOf).map StatsApi.endpointCount = _
    rw [List.map_map]
    refine List.map_congr_left fun s hs => ?_
    exact spec_recognized_eq s (hw s hs)

theorem c1_endpoint_count_definitions_witness :
    (listAllSpecs [wStats, wNoPaths]).map ApiSummary.endpointCount
        = [wStats, wNoPaths].map distinctPathKeyCount ∧
    (getApiStats [wStats, wNoPaths]).apis.map StatsApi.endpointCount
        = [wStats, wNoPaths].map recognizedPairCount :=
  c1_endpoint_count_definitions [wStats, wNoPaths] (by decide)

/-- C2 counterexample: the claim says a path-item key is matched only when
its value is a non-null structured object, excluding fields such as
`parameters`; but the code's check is `typeof v === "object" && v !== null`,
which an *array*-valued `parameters` passes, and it yields a search result
with method `PARAMETERS`. -/
theorem c2_search_counterexample :
    (searchEndpoints [wUsers] "users").map SearchResult.method = ["PARAMETERS", "GET"] ∧
    (Json.jarr []).isPlainObj = false ∧
    wParamsItem.getProp "parameters" = some (Json.jarr []) :=
  ⟨rfl, rfl, rfl⟩

/-- C2 (amended): `searchEndpoints` yields one result per scanned
`(path, key)` entry whose value is a non-null object **or array**
(JavaScript `typeof v === "object" && v !== null` — so array-valued
path-item fields such as `parameters` are also matched, while string-valued
ones such as `$ref` are not); for each matched entry the path, key,
`summary`, `description` and `operationId` (empty when absent) are
whitespace-joined, lower-cased and tested for containment of the
lower-cased query, and the result's method field is the upper-cased key. -/
theorem c2_search_characterization (specs : List OpenAPISpec) (q : String)
    (_hsafe : RegistrySafe specs) :
    searchEndpoints specs q =
      ((endpointEntries specs).filter (entryMatches q)).map entryResult :=
  searchEndpoints_eq_entries specs q

theorem c2_search_characterization_witness :
    searchEndpoints [wUsers] "users" =
      ((endpointEntries [wUsers]).filter (entryMatches "users")).map entryResult :=
  c2_search_characterization [wUsers] "users" (by decide)

/-- C3 counterexample: the claim extends the one-record-per-defining-spec
property to the `compare_schemas` tool invoked with `schema2` omitted; but
the dispatcher substitutes `schema1` for a missing `schema2`
(`(args.schema2 as string) || schema1`), so `compareSchemas` runs with the
name list `[schema1, schema1]` and returns **two** records for the single
spec defining `User`. -/
theorem c3_compare_tool_counterexample :
    (compareToolRecords [wUser1] (some "User") none).length = 2 ∧
    ([wUser1].filter fun s => definesSchemaB s "User").length = 1 :=
  ⟨rfl, rfl⟩

/-- C3 (amended): the engine method `compareSchemas` with an empty second
name returns exactly one record per spec defining the named schema; with
two distinct names it returns the per-spec union of per-name matches with
at most one record per spec per name (given registry-unique filenames);
but the `compare_schemas` *tool* with `schema2` omitted substitutes
`schema1` for it and returns exactly **two** records per defining spec. -/
theorem c3_compare_schemas_amended (specs : List OpenAPISpec) (n₁ n₂ : String)
    (h2 : n₂ ≠ "") (hne : n₁ ≠ n₂)
    (hnodup : (specs.map OpenAPISpec.filename).Nodup) :
    compareSchemas specs n₁ "" =
        (specs.filter fun s => definesSchemaB s n₁).map (fun s => mkSchemaRecord s n₁) ∧
    compareSchemas specs n₁ n₂ = (specs.flatMap fun s => specNameBlock s n₁ n₂) ∧
    List.Pairwise (fun r r' => ¬(r.filename = r'.filename ∧ r.schemaName = r'.schemaName))
      (compareSchemas specs n₁ n₂) ∧
    (n₁ ≠ "" →
      callCompareSchemas specs (some n₁) none = .ok (compareSchemas specs n₁ n₁) ∧
      (compareSchemas specs n₁ n₁).length =
        2 * ((specs.filter fun s => definesSchemaB s n₁).length)) :=
  ⟨compareSchemas_single specs n₁, compareSchemas_two specs n₁ n₂ h2,
    compareSchemas_pairwise specs n₁ n₂ h2 hne hnodup,
    fun h1 => ⟨callCompareSchemas_omitted specs n₁ h1, compareSchemas_dup_length specs n₁ h1⟩⟩

theorem c3_compare_schemas_amended_witness :
    compareSchemas [wUser1, wUser2] "User" "" =
        (([wUser1, wUser2].filter fun s => definesSchemaB s "User").map
          fun s => mkSchemaRecord s "User") ∧
    (compareSchemas [wUser1, wUser2] "User" "User").length =
      2 * (([wUser1, wUser2].filter fun s => definesSchemaB s "User").length) := by
  have h := c3_compare_schemas_amended [wUser1, wUser2] "User" "Product"
    (by decide) (by decide) (by decide)
  exact ⟨h.1, (h.2.2.2 (by decide)).2⟩

/-- C4: for every loaded registry (path items non-null so that the code
does not throw), `get_api_stats` satisfies
`sum(methodCounts.values()) == totalEndpoints`. -/
theorem c4_method_counts_sum (specs : List OpenAPISpec) (_hsafe : RegistrySafe specs) :
    sumVals (getApiStats specs).methodCounts = (getApiStats specs).totalEndpoints := by
  rw [getApiStats_eq]
  show sumVals ((specs.flatMap specRecognizedUppers).foldl incr []) =
    (specs.flatMap specRecognizedUppers).length
  rw [sumVals_foldl_incr]
  simp [sumVals]

theorem c4_method_counts_sum_witness :
    sumVals (getApiStats [wStats, wUsers]).methodCounts =
      (getApiStats [wStats, wUsers]).totalEndpoints :=
  c4_method_counts_sum [wStats, wUsers] (by decide)

/-- C5: `commonPaths` normalization replaces every brace-delimited
parameter token by the literal `id` (so templates differing only in
parameter names collapse to the same key), leaves brace-free paths
unchanged (so distinct path prefixes stay distinct keys), and each key's
count is the number of `(spec, original path)` occurrences normalizing to
it; in particular the `/a/{x}`,`/a/{y}` spec yields
`commonPaths == ("/a/(id)": 2)`. -/
theorem c5_common_paths_normalization :
    (∀ ps : List PathPiece, (∀ p ∈ ps, PieceWF p = true) →
      normalizePathStr (renderPath ps) = renderPath (ps.map collapsePiece)) ∧
    (∀ s : String, (∀ c ∈ s.toList, c ≠ '{') → normalizePathStr s = s) ∧
    (∀ (specs : List OpenAPISpec) (k : String), RegistrySafe specs →
      (getApiStats specs).commonPaths.lookup k =
        if (specs.flatMap specNormPaths).count k = 0 then none
        else some ((specs.flatMap specNormPaths).count k)) ∧
    (getApiStats [wStats]).commonPaths = [("/a/\x7bid\x7d", 2)] := by
  refine ⟨normalizePath_render, ?_, ?_, ?_⟩
  · intro s h
    unfold normalizePathStr
    rw [normalizeChars_no_brace s.toList h]
    cases s
    rfl
  · intro specs k _
    rw [getApiStats_eq]
    show ((specs.flatMap specNormPaths).foldl incr []).lookup k = _
    rw [lookup_foldl_incr]
    by_cases hc : (specs.flatMap specNormPaths).count k = 0 <;> simp [hc]
  · rfl

theorem c5_common_paths_normalization_witness :
    normalizePathStr "/users/\x7buserId\x7d" = "/users/\x7bid\x7d" ∧
    (getApiStats [wStats]).commonPaths.lookup "/a/\x7bid\x7d" = some 2 := by
  have h := c5_common_paths_normalization
  refine ⟨?_, ?_⟩
  · exact h.1 [PathPiece.lit "/users/", PathPiece.param "userId"] (by decide)
  · rw [h.2.2.1 [wStats] "/a/\x7bid\x7d" (by decide)]
    rfl

/-- C6: `searchEndpoints` is case-insensitive in its query: two queries
with the same lower-casing produce identical result sequences on every
registry. -/
theorem c6_search_case_insensitive (specs : List OpenAPISpec) (q₁ q₂ : String)
    (h : jsLower q₁ = jsLower q₂) :
    searchEndpoints specs q₁ = searchEndpoints specs q₂ := by
  unfold searchEndpoints
  rw [h]

theorem c6_search_case_insensitive_witness :
    searchEndpoints [wUsers] "USERS" = searchEndpoints [wUsers] "users" :=
  c6_search_case_insensitive [wUsers] "USERS" "users" rfl

/-- C7: `findInconsistencies` returns the empty sequence when at most one
distinct security-scheme `type` is observed across the registry, and
exactly one `authentication` record when two or more distinct types are
observed, whose `details` maps every observed scheme type to the list of
`"specId: schemeName"` qualified names using it.  (Hypotheses: scheme
values are non-`null` — `schemeObj.type` would throw — and `type` values
are strings, as OpenAPI prescribes.) -/
theorem c7_find_inconsistencies (specs : List OpenAPISpec)
    (_hsafe : SchemesSafe specs) (hstr : StrTyped specs) :
    ((∀ t₁ ∈ (authTypeOcc specs).map Prod.fst, ∀ t₂ ∈ (authTypeOcc specs).map Prod.fst,
        t₁ = t₂) →
      findInconsistencies specs = []) ∧
    (∀ t₁ ∈ (authTypeOcc specs).map Prod.fst, ∀ t₂ ∈ (authTypeOcc specs).map Prod.fst,
      t₁ ≠ t₂ →
      (findInconsistencies specs =
        [{ type := "authentication"
           message := "Multiple authentication schemes found across APIs"
           details := strAuthMap specs }] ∧
       ∀ t ∈ (authTypeOcc specs).map Prod.fst,
         (strAuthMap specs).lookup t =
           some (((authTypeOcc specs).filter fun o => o.1 == t).map Prod.snd))) := by
  have hlift := authSchemesMap_eq_lift specs hstr
  have hlenEq : (authSchemesMap specs).length = (strAuthMap specs).length := by
    rw [hlift]
    simp [liftStrMap]
  have hkeysnodup : ((strAuthMap specs).map Prod.fst).Nodup :=
    nodup_keys_foldl_pushStr _ [] (by simp)
  have hmemkeys : ∀ k, k ∈ (strAuthMap specs).map Prod.fst ↔
      k ∈ (authTypeOcc specs).map Prod.fst := by
    intro k
    unfold strAuthMap
    rw [mem_keys_foldl_pushStr]
    simp
  constructor
  · intro hone
    have hle : (strAuthMap specs).length ≤ 1 := by
      rcases hM : strAuthMap specs with _ | ⟨a, t⟩
      · simp
      · rcases ht : t with _ | ⟨b, u⟩
        · simp
        · exfalso
          have hnd := hkeysnodup
          rw [hM, ht] at hnd
          simp only [List.map_cons, List.nodup_cons, List.mem_cons] at hnd
          have hab : a.1 ≠ b.1 := fun hcon => hnd.1 (Or.inl hcon)
          have ha : a.1 ∈ (authTypeOcc specs).map Prod.fst := by
            rw [← hmemkeys, hM, ht]
            simp
          have hb : b.1 ∈ (authTypeOcc specs).map Prod.fst := by
            rw [← hmemkeys, hM, ht]
            simp
          exact hab (hone a.1 ha b.1 hb)
    unfold findInconsistencies
    have hnot : ¬ (authSchemesMap specs).length > 1 := by
      rw [hlenEq]
      omega
    rw [if_neg hnot]
  · intro t₁ h₁ t₂ h₂ hne
    have hk₁ : t₁ ∈ (strAuthMap specs).map Prod.fst := (hmemkeys t₁).mpr h₁
    have hk₂ : t₂ ∈ (strAuthMap specs).map Prod.fst := (hmemkeys t₂).mpr h₂
    have hlen2 : 1 < (strAuthMap specs).length := by
      rcases hM : strAuthMap specs with _ | ⟨a, t⟩
      · rw [hM] at hk₁
        simp at hk₁
      · rcases ht : t with _ | ⟨b, u⟩
        · rw [hM, ht] at hk₁ hk₂
          simp at hk₁ hk₂
          exact absurd (hk₁.trans hk₂.symm) hne
        · simp only [List.length_cons]
          omega
    refine ⟨?_, ?_⟩
    · unfold findInconsistencies
      have hgt : (authSchemesMap specs).length > 1 := by
        rw [hlenEq]
        exact hlen2
      rw [if_pos hgt, hlift, fromEntriesStr_lift _ hkeysnodup]
    · intro t ht
      unfold strAuthMap
      rw [lookup_foldl_pushStr]
      have hnonempty : ((authTypeOcc specs).filter fun o => o.1 == t).isEmpty = false := by
        rw [List.mem_map] at ht
        obtain ⟨o, ho, hfst⟩ := ht
        have hmemf : o ∈ (authTypeOcc specs).filter fun o' => o'.1 == t :=
          List.mem_filter.mpr ⟨ho, by simp [hfst]⟩
        have hnil : (authTypeOcc specs).filter (fun o' => o'.1 == t) ≠ [] :=
          List.ne_nil_of_mem hmemf
        cases hfil : (authTypeOcc specs).filter fun o' => o'.1 == t with
        | nil => exact absurd hfil hnil
        | cons x xs => rfl
      simp [hnonempty]

theorem c7_find_inconsistencies_witness :
    findInconsistencies [wAuth1, wAuth2] =
      [{ type := "authentication"
         message := "Multiple authentication schemes found across APIs"
         details := [("http", ["a1.json: bearerAuth"]), ("apiKey", ["a2.json: apiKey"])] }] := by
  have h := (c7_find_inconsistencies [wAuth1, wAuth2] (by decide) (by decide)).2
    "http" (by decide) "apiKey" (by decide) (by decide)
  rw [h.1]
  rfl

/-- C8: `getSpecByFilename` returns the raw document of the matching spec
when one exists and `null` (absence, not an error) otherwise, for every
registry including the empty one; and the `get_api_spec` tool case answers
a missing spec with a not-found text payload rather than raising. -/
theorem c8_get_spec_not_found (specs : List OpenAPISpec) (filename : String) :
    (getSpecByFilename specs filename = none ↔ ∀ s ∈ specs, s.filename ≠ filename) ∧
    ((∃ s ∈ specs, s.filename = filename) →
      ∃ s, s ∈ specs ∧ s.filename = filename ∧
        getSpecByFilename specs filename = some s.spec) ∧
    (filename ≠ "" → getSpecByFilename specs filename = none →
      callGetApiSpec specs (some filename) = "API spec not found: " ++ filename) := by
  refine ⟨?_, ?_, ?_⟩
  · unfold getSpecByFilename
    rw [Option.map_eq_none', List.find?_eq_none]
    constructor
    · intro h s hs
      simpa using h s hs
    · intro h s hs
      simpa using h s hs
  · rintro ⟨s0, hs0, hf0⟩
    rcases hfind : specs.find? (fun s => s.filename == filename) with _ | r
    · exfalso
      rw [List.find?_eq_none] at hfind
      exact hfind s0 hs0 (by simp [hf0])
    · refine ⟨r, List.mem_of_find?_eq_some hfind, ?_, ?_⟩
      · simpa using List.find?_some hfind
      · unfold getSpecByFilename
        rw [hfind]
        rfl
  · intro h1 h2
    unfold callGetApiSpec
    dsimp only
    rw [if_neg h1, h2]

theorem c8_get_spec_not_found_witness :
    callGetApiSpec [] (some "missing.json") = "API spec not found: missing.json" :=
  (c8_get_spec_not_found [] "missing.json").2.2 (by decide) rfl

/-- C9: every query operation leaves the analyzer state (the `specs`
sequence with all its entries) unchanged, and repeated calls with the same
arguments on the same state return equal results. -/
theorem c9_queries_pure (st : AnalyzerState) (query filename n₁ n₂ : String) :
    (listAllSpecsM st).1 = st ∧
    (getSpecByFilenameM st filename).1 = st ∧
    (searchEndpointsM st query).1 = st ∧
    (getApiStatsM st).1 = st ∧
    (findInconsistenciesM st).1 = st ∧
    (compareSchemasM st n₁ n₂).1 = st ∧
    (listAllSpecsM ((listAllSpecsM st).1)).2 = (listAllSpecsM st).2 ∧
    (getSpecByFilenameM ((getSpecByFilenameM st filename).1) filename).2 =
      (getSpecByFilenameM st filename).2 ∧
    (searchEndpointsM ((searchEndpointsM st query).1) query).2 =
      (searchEndpointsM st query).2 ∧
    (getApiStatsM ((getApiStatsM st).1)).2 = (getApiStatsM st).2 ∧
    (findInconsistenciesM ((findInconsistenciesM st).1)).2 =
      (findInconsistenciesM st).2 ∧
    (compareSchemasM ((compareSchemasM st n₁ n₂).1) n₁ n₂).2 =
      (compareSchemasM st n₁ n₂).2 :=
  ⟨rfl, rfl, rfl, rfl, rfl, rfl, rfl, rfl, rfl, rfl, rfl, rfl⟩

/-- C10: `get_api_stats` satisfies `sum(versions.values()) == totalApis`:
each spec contributes exactly one increment to `versions`, under its
declared version string or `"unknown"`, whether or not it has paths. -/
theorem c10_versions_sum (specs : List OpenAPISpec) (_hsafe : RegistrySafe specs) :
    sumVals (getApiStats specs).versions = (getApiStats specs).totalApis ∧
    ∀ v, (getApiStats specs).versions.lookup v =
      if (specs.map versionKeyOf).count v = 0 then none
      else some ((specs.map versionKeyOf).count v) := by
  rw [getApiStats_eq]
  constructor
  · show sumVals ((specs.map versionKeyOf).foldl incr []) = specs.length
    rw [sumVals_foldl_incr]
    simp [sumVals]
  · intro v
    show ((specs.map versionKeyOf).foldl incr []).lookup v = _
    rw [lookup_foldl_incr]
    by_cases hc : (specs.map versionKeyOf).count v = 0 <;> simp [hc]

theorem c10_versions_sum_witness :
    sumVals (getApiStats [wStats, wNoPaths]).versions =
        (getApiStats [wStats, wNoPaths]).totalApis ∧
    (getApiStats [wStats, wNoPaths]).versions.lookup "unknown" = some 2 := by
  have h := c10_versions_sum [wStats, wNoPaths] (by decide)
  refine ⟨h.1, ?_⟩
  rw [h.2 "unknown"]
  rfl

section JsonModelChecks

example : (Json.jobj [("a", Json.num 1)]).getProp "a" = some (Json.num 1) := rfl
example : (Json.jarr [Json.str "x"]).getProp "0" = some (Json.str "x") := rfl
example : (Json.jarr [Json.str "x"]).getProp "00" = none := rfl
example : (Json.str "ab").getProp "1" = some (Json.str "b") := rfl
example : Json.jsToString (Json.jarr [Json.num 1, Json.null, Json.num 2]) = "1,,2" := rfl
example : jsLower "AbC" = "abc" := rfl
example : strIncludes "get all users" "users" = true := rfl
example : strIncludes "abc" "" = true := rfl
example : incr (incr [] "GET") "GET" = [("GET", 2)] := rfl
example : sortStrings ["POST", "GET", "DELETE"] = ["DELETE", "GET", "POST"] := rfl

end JsonModelChecks
